import Mathlib

/-!
Verification of `tools/no-bad-latin.py`: a documentation linter that strips
HTML comments from text files, lower-cases the remainder, and reports lines
containing disallowed latin abbreviations.

Python strings are modelled as `List Char`; the filesystem is modelled as a
function from filename to `Option` content (`none` = `FileNotFoundError`,
decode errors are considered already resolved inside the content, matching
`errors="ignore"`); `os.path.abspath` is modelled as an abstract function.
-/

/-- A Python `str`, modelled as its list of characters. -/
abbrev Str := List Char

/-- Python's `sub in s` substring test: does `sub` occur contiguously in `s`? -/
def containsSub (sub : Str) : Str → Bool
  | [] => sub.isPrefixOf []
  | c :: rest => sub.isPrefixOf (c :: rest) || containsSub sub rest

/-- Index of the first occurrence of `pat` in `s`, if any (used to model how
`re.sub` scans left to right for the leftmost match). -/
def findSub (pat : Str) : Str → Option Nat
  | [] => if pat.isPrefixOf ([] : Str) then some 0 else none
  | c :: rest =>
    if pat.isPrefixOf (c :: rest) then some 0
    else (findSub pat rest).map (fun n => n + 1)

/-- The comment opening delimiter `<!--`. -/
def openTok : Str := ['<', '!', '-', '-']

/-- The comment closing delimiter `-->`. -/
def closeTok : Str := ['-', '-', '>']

/-- Fuelled worker for `remove_comments`.  `re.sub("(?s)<!--(.*?)-->", "", s)`
scans left to right; at the leftmost `<!--` it pairs with the first `-->`
starting at least 4 characters later (non-greedy), deletes the span and
resumes after it; if no such `-->` exists no later opener can match either,
so the rest of the text is kept unchanged. -/
def stripGo : Nat → Str → Str
  | 0, s => s
  | Nat.succ fuel, s =>
    if openTok.isPrefixOf s then
      match findSub closeTok (s.drop 4) with
      | none => s
      | some j => stripGo fuel (s.drop (4 + j + 3))
    else
      match s with
      | [] => []
      | c :: rest => c :: stripGo fuel rest

/-- `remove_comments`: deletes every `<!-- ... -->` span (non-greedy, across
line boundaries), exactly as `re.sub("(?s)<!--(.*?)-->", "", text_string)`. -/
def remove_comments (text_string : Str) : Str :=
  stripGo text_string.length text_string

/-- Python's `str.lower` on one character (ASCII letters; the patterns and
delimiters the linter cares about are all ASCII). -/
def lowerChar : Char → Char
  | 'A' => 'a'
  | 'B' => 'b'
  | 'C' => 'c'
  | 'D' => 'd'
  | 'E' => 'e'
  | 'F' => 'f'
  | 'G' => 'g'
  | 'H' => 'h'
  | 'I' => 'i'
  | 'J' => 'j'
  | 'K' => 'k'
  | 'L' => 'l'
  | 'M' => 'm'
  | 'N' => 'n'
  | 'O' => 'o'
  | 'P' => 'p'
  | 'Q' => 'q'
  | 'R' => 'r'
  | 'S' => 's'
  | 'T' => 't'
  | 'U' => 'u'
  | 'V' => 'v'
  | 'W' => 'w'
  | 'X' => 'x'
  | 'Y' => 'y'
  | 'Z' => 'z'
  | c => c

/-- Python's `str.lower` on a whole string. -/
def lower (s : Str) : Str := s.map lowerChar

/-- Python's `text.split("\n")`: the list of lines (always non-empty, with
empty pieces kept, exactly as `str.split` with an explicit separator). -/
def splitNl : Str → List Str
  | [] => [[]]
  | c :: rest =>
    if c == '\n' then [] :: splitNl rest
    else
      match splitNl rest with
      | [] => [[c]]
      | l :: ls => (c :: l) :: ls

/-- `get_lines`: the lines of `text_string` (split on `"\n"`) that contain
`sub_string`. -/
def get_lines (text_string : Str) (sub_string : Str) : List Str :=
  (splitNl text_string).filter (fun line => containsSub sub_string line)

/-- `IGNORE_LIST`: basenames that are never scanned. -/
def IGNORE_LIST : List Str := ["CHANGES.md".toList]

/-- The `bad_latin` pattern list, in source order. -/
def bad_latin : List Str :=
  ["i.e.".toList, "i.e ".toList, " ie ".toList, "e.g.".toList,
   "e.g ".toList, "e.t.c.".toList, " etc".toList, "et cetera".toList]

/-- `os.path.basename`: the part of the path after the last `/`. -/
def basename (p : Str) : Str :=
  (p.reverse.takeWhile (fun c => !(c == '/'))).reverse

/-- One value of the `failing_files` dictionary: the offending pattern and
the offending line recorded for a file. -/
structure Entry where
  latin_type : Str
  line : Str
deriving DecidableEq

/-- The `failing_files` dictionary: association list from absolute path to
`Entry`, with Python-dict semantics (`dictInsert` replaces in place an
existing key and otherwise appends). -/
abbrev Dict := List (Str × Entry)

/-- Python dict assignment `d[k] = v`. -/
def dictInsert (d : Dict) (k : Str) (v : Entry) : Dict :=
  match d with
  | [] => [(k, v)]
  | p :: rest => if p.1 == k then (k, v) :: rest else p :: dictInsert rest k v

/-- Python dict lookup `d[k]` (as an `Option`). -/
def dictLookup (d : Dict) (k : Str) : Option Entry :=
  (d.find? (fun p => p.1 == k)).map (fun p => p.2)

/-- The body of `read_and_check_files` for a single file: skip files on the
ignore list, treat `FileNotFoundError` as no matches, otherwise strip
comments and, for each pattern contained in the lower-cased text, overwrite
`failing_files[abspath filename]` once per line containing the pattern. -/
def checkFile (fs : Str → Option Str) (abspath : Str → Str)
    (failing_files : Dict) (filename : Str) : Dict :=
  if basename filename ∈ IGNORE_LIST then failing_files
  else
    match fs filename with
    | none => failing_files
    | some text =>
      bad_latin.foldl
        (fun d latin_type =>
          if containsSub latin_type (lower (remove_comments text)) then
            (get_lines (lower (remove_comments text)) latin_type).foldl
              (fun d2 line => dictInsert d2 (abspath filename) ⟨latin_type, line⟩) d
          else d)
        failing_files

/-- `read_and_check_files`: fold `checkFile` over the input file list,
starting from the empty dictionary. -/
def read_and_check_files (fs : Str → Option Str) (abspath : Str → Str)
    (files : List Str) : Dict :=
  files.foldl (checkFile fs abspath) []

/-- The per-file scan outcome viewed on its own: `none` when no pattern is
recorded, otherwise the final (last-written) entry for that file. -/
def checkText (text : Str) : Option Entry :=
  bad_latin.foldl
    (fun acc latin_type =>
      if containsSub latin_type (lower (remove_comments text)) then
        (get_lines (lower (remove_comments text)) latin_type).foldl
          (fun _acc2 line => some ⟨latin_type, line⟩) acc
      else acc)
    none

/-- The last pattern of `bad_latin` (in list order) contained in `s`. -/
def lastMatching (s : Str) : Option Str :=
  bad_latin.foldl (fun acc p => if containsSub p s then some p else acc) none

/-- `construct_error_message`: header plus one line per failing file, joined
by newlines. -/
def construct_error_message (files_dict : Dict) : Str :=
  List.intercalate ("\n".toList)
    (("Bad latin found in the following files:\n".toList) ::
      files_dict.map (fun p =>
        p.1 ++ ":\t".toList ++ p.2.latin_type ++ "\tfound in line\t[".toList
          ++ p.2.line ++ "]\n".toList))

/-- The body of `main` after file discovery: `none` models a silent
zero-status exit, `some msg` models `raise Exception(msg)` (non-zero exit
printing `msg`).  (`main` itself is a reserved name in Lean.) -/
def mainCheck (fs : Str → Option Str) (abspath : Str → Str)
    (files : List Str) : Option Str :=
  if (read_and_check_files fs abspath files).isEmpty then none
  else some (construct_error_message (read_and_check_files fs abspath files))

/-! ### Basic lemmas about `findSub`, `containsSub` and `remove_comments` -/

lemma findSub_of_prefixTrue (pat s : Str) (h : pat.isPrefixOf s = true) :
    findSub pat s = some 0 := by
  cases s <;> simp [findSub, h]

lemma findSub_cons_of_notPrefix (pat : Str) (x : Char) (s : Str)
    (h : pat.isPrefixOf (x :: s) = false) :
    findSub pat (x :: s) = (findSub pat s).map (fun n => n + 1) := by
  simp [findSub, h]

lemma containsSub_eq_isSome (pat s : Str) :
    containsSub pat s = (findSub pat s).isSome := by
  induction s with
  | nil => cases h : pat.isPrefixOf ([] : Str) <;> simp [containsSub, findSub, h]
  | cons c rest ih =>
    by_cases h : pat.isPrefixOf (c :: rest) = true
    · simp [containsSub, findSub, h]
    · rw [Bool.not_eq_true] at h
      simp [containsSub, findSub, h, ih]

lemma findSub_eq_none_of_not_contains (pat s : Str) (h : containsSub pat s = false) :
    findSub pat s = none := by
  rw [containsSub_eq_isSome] at h
  exact Option.not_isSome_iff_eq_none.mp (by simp [h])

lemma containsSub_cons_false (pat : Str) (x : Char) (s : Str)
    (h : containsSub pat (x :: s) = false) :
    containsSub pat s = false ∧ pat.isPrefixOf (x :: s) = false := by
  simp [containsSub] at h
  exact ⟨h.2, h.1⟩

lemma containsSub_of_isPrefixOf (pat s : Str) (h : pat.isPrefixOf s = true) :
    containsSub pat s = true := by
  cases s <;> simp [containsSub, h]

lemma stripGo_congr :
    ∀ (f1 f2 : Nat) (s : Str), s.length ≤ f1 → s.length ≤ f2 →
      stripGo f1 s = stripGo f2 s := by
  intro f1
  induction f1 with
  | zero =>
    intro f2 s h1 _h2
    have hs : s = [] := List.eq_nil_of_length_eq_zero (Nat.le_zero.mp h1)
    subst hs
    cases f2 <;> rfl
  | succ n1 ih =>
    intro f2 s h1 h2
    cases f2 with
    | zero =>
      have hs : s = [] := List.eq_nil_of_length_eq_zero (Nat.le_zero.mp h2)
      subst hs
      rfl
    | succ n2 =>
      simp only [stripGo]
      split
      · cases hfs : findSub closeTok (s.drop 4) with
        | none => rfl
        | some j =>
          apply ih
          · rw [List.length_drop]; omega
          · rw [List.length_drop]; omega
      · cases s with
        | nil => rfl
        | cons c rest =>
          simp only [List.length_cons] at h1 h2
          have := ih n2 rest (by omega) (by omega)
          simp [this]

lemma remove_comments_eq (s : Str) :
    remove_comments s =
      if openTok.isPrefixOf s then
        match findSub closeTok (s.drop 4) with
        | none => s
        | some j => remove_comments (s.drop (4 + j + 3))
      else
        match s with
        | [] => []
        | c :: rest => c :: remove_comments rest := by
  cases s with
  | nil => rfl
  | cons c rest =>
    show stripGo (rest.length + 1) (c :: rest) = _
    simp only [stripGo]
    split
    · cases hfs : findSub closeTok ((c :: rest).drop 4) with
      | none => rfl
      | some j =>
        show stripGo rest.length _ = remove_comments _
        unfold remove_comments
        apply stripGo_congr
        · rw [List.length_drop]; simp only [List.length_cons]; omega
        · rfl
    · show c :: stripGo rest.length rest = c :: remove_comments rest
      rfl

/-! ### The comment stripper on texts with an explicit span structure -/

lemma beq_bang_lt : (('!' : Char) == '<') = false := by decide

lemma beq_dash_lt : (('-' : Char) == '<') = false := by decide

lemma beq_gt_dash : (('>' : Char) == '-') = false := by decide

lemma closeTok_not_prefix_mid (c b : Str) (hc : containsSub closeTok c = false)
    (hne : c ≠ []) : closeTok.isPrefixOf (c ++ (closeTok ++ b)) = false := by
  cases c with
  | nil => exact absurd rfl hne
  | cons x c' =>
    cases c' with
    | nil => simp [closeTok, List.isPrefixOf, beq_gt_dash]
    | cons y c'' =>
      cases c'' with
      | nil => simp [closeTok, List.isPrefixOf, beq_gt_dash]
      | cons z c''' =>
        cases hp : closeTok.isPrefixOf ((x :: y :: z :: c''') ++ (closeTok ++ b)) with
        | false => rfl
        | true =>
          exfalso
          simp [closeTok, List.isPrefixOf] at hp
          obtain ⟨h1, h2, h3⟩ := hp
          subst h1 h2 h3
          have hcon : containsSub closeTok ('-' :: '-' :: '>' :: c''') = true :=
            containsSub_of_isPrefixOf _ _ (by simp [closeTok, List.isPrefixOf])
          rw [hc] at hcon
          exact Bool.false_ne_true hcon

lemma openTok_not_prefix_mid (a r : Str) (ha : containsSub openTok a = false)
    (hne : a ≠ []) : openTok.isPrefixOf (a ++ (openTok ++ r)) = false := by
  cases a with
  | nil => exact absurd rfl hne
  | cons x a' =>
    cases a' with
    | nil => simp [openTok, List.isPrefixOf, beq_bang_lt]
    | cons y a'' =>
      cases a'' with
      | nil => simp [openTok, List.isPrefixOf, beq_dash_lt]
      | cons z a''' =>
        cases a''' with
        | nil => simp [openTok, List.isPrefixOf, beq_dash_lt]
        | cons w a'''' =>
          cases hp : openTok.isPrefixOf ((x :: y :: z :: w :: a'''') ++ (openTok ++ r)) with
          | false => rfl
          | true =>
            exfalso
            simp [openTok, List.isPrefixOf] at hp
            obtain ⟨h1, h2, h3, h4⟩ := hp
            subst h1 h2 h3 h4
            have hcon : containsSub openTok ('<' :: '!' :: '-' :: '-' :: a'''') = true :=
              containsSub_of_isPrefixOf _ _ (by simp [openTok, List.isPrefixOf])
            rw [ha] at hcon
            exact Bool.false_ne_true hcon

lemma findSub_closeTok_append (c b : Str) (hc : containsSub closeTok c = false) :
    findSub closeTok (c ++ (closeTok ++ b)) = some c.length := by
  induction c with
  | nil =>
    simp only [List.nil_append]
    rw [findSub_of_prefixTrue _ _ (List.isPrefixOf_iff_prefix.mpr (List.prefix_append _ _))]
    rfl
  | cons x c' ih =>
    have hsplit := containsSub_cons_false _ _ _ hc
    have hnp : closeTok.isPrefixOf ((x :: c') ++ (closeTok ++ b)) = false :=
      closeTok_not_prefix_mid (x :: c') b hc (by simp)
    rw [List.cons_append] at hnp ⊢
    rw [findSub_cons_of_notPrefix _ _ _ hnp, ih hsplit.1]
    rfl

/-- The heart of claim C6: a well-delimited comment span is removed whole
(the opener pairing with the first closer), and everything before it and
after it is processed as if the span were not there. -/
lemma remove_comments_span (a c b : Str)
    (ha : containsSub openTok a = false) (hc : containsSub closeTok c = false) :
    remove_comments (a ++ (openTok ++ (c ++ (closeTok ++ b)))) =
      a ++ remove_comments b := by
  induction a with
  | nil =>
    simp only [List.nil_append]
    rw [remove_comments_eq]
    rw [if_pos (List.isPrefixOf_iff_prefix.mpr (List.prefix_append _ _))]
    have hdrop4 : (openTok ++ (c ++ (closeTok ++ b))).drop 4 = c ++ (closeTok ++ b) :=
      List.drop_left openTok _
    rw [hdrop4, findSub_closeTok_append c b hc]
    have hlen : 4 + c.length + 3 = (openTok ++ (c ++ closeTok)).length := by
      simp [openTok, closeTok]
      omega
    have hdrop : (openTok ++ (c ++ (closeTok ++ b))).drop (4 + c.length + 3) = b := by
      rw [hlen]
      have : openTok ++ (c ++ (closeTok ++ b)) = (openTok ++ (c ++ closeTok)) ++ b := by
        simp [List.append_assoc]
      rw [this, List.drop_left]
    show remove_comments ((openTok ++ (c ++ (closeTok ++ b))).drop (4 + c.length + 3)) =
      remove_comments b
    rw [hdrop]
  | cons x a' ih =>
    have hsplit := containsSub_cons_false _ _ _ ha
    have hnp : openTok.isPrefixOf ((x :: a') ++ (openTok ++ (c ++ (closeTok ++ b)))) = false :=
      openTok_not_prefix_mid (x :: a') _ ha (by simp)
    rw [List.cons_append] at hnp ⊢
    rw [remove_comments_eq, if_neg (by simp [hnp])]
    simp only []
    rw [ih hsplit.1]
    rfl

/-- The second half of claim C6: an opener with no closer after it is left
untouched, together with everything from it to the end of the text. -/
lemma remove_comments_unterminated (a c : Str)
    (ha : containsSub openTok a = false) (hc : containsSub closeTok c = false) :
    remove_comments (a ++ (openTok ++ c)) = a ++ (openTok ++ c) := by
  induction a with
  | nil =>
    simp only [List.nil_append]
    rw [remove_comments_eq]
    rw [if_pos (List.isPrefixOf_iff_prefix.mpr (List.prefix_append _ _))]
    have hdrop4 : (openTok ++ c).drop 4 = c := List.drop_left openTok c
    rw [hdrop4, findSub_eq_none_of_not_contains _ _ hc]
  | cons x a' ih =>
    have hsplit := containsSub_cons_false _ _ _ ha
    have hnp : openTok.isPrefixOf ((x :: a') ++ (openTok ++ c)) = false :=
      openTok_not_prefix_mid (x :: a') _ ha (by simp)
    rw [List.cons_append] at hnp ⊢
    rw [remove_comments_eq, if_neg (by simp [hnp])]
    simp only []
    rw [ih hsplit.1]

/-! ### When the stripper is the identity -/

/-- `true` iff `re.sub("(?s)<!--(.*?)-->", "", s)` finds a match in `s`:
some `<!--` is followed (at distance at least 4) by a `-->`. -/
def hasSpan (s : Str) : Bool :=
  match findSub openTok s with
  | none => false
  | some i => containsSub closeTok (s.drop (i + 4))

lemma remove_comments_id_of_no_span (s : Str) (h : hasSpan s = false) :
    remove_comments s = s := by
  induction s with
  | nil => rfl
  | cons x rest ih =>
    rw [remove_comments_eq]
    cases hpre : openTok.isPrefixOf (x :: rest) with
    | true =>
      rw [if_pos rfl]
      simp only [hasSpan, findSub_of_prefixTrue _ _ hpre, Nat.zero_add] at h
      rw [findSub_eq_none_of_not_contains _ _ h]
    | false =>
      rw [if_neg (by simp)]
      show x :: remove_comments rest = x :: rest
      have hrest : hasSpan rest = false := by
        unfold hasSpan at h ⊢
        rw [findSub_cons_of_notPrefix _ _ _ hpre] at h
        cases hfs : findSub openTok rest with
        | none => rfl
        | some i =>
          rw [hfs] at h
          simpa [List.drop_succ_cons] using h
      rw [ih hrest]

/-! ### Lower-casing commutes with comment stripping -/

lemma lowerChar_delim (c d : Char) (hd : d = '<' ∨ d = '!' ∨ d = '-' ∨ d = '>') :
    lowerChar c = d ↔ c = d := by
  unfold lowerChar
  rcases hd with h | h | h | h <;> subst h <;>
    (split <;> first | rfl | (subst_vars; decide))

lemma beq_lowerChar_delim (c d : Char) (hd : d = '<' ∨ d = '!' ∨ d = '-' ∨ d = '>') :
    (d == lowerChar c) = (d == c) := by
  rw [Bool.eq_iff_iff, beq_iff_eq, beq_iff_eq]
  constructor
  · intro h
    exact ((lowerChar_delim c d hd).mp h.symm).symm
  · intro h
    exact ((lowerChar_delim c d hd).mpr h.symm).symm

lemma openTok_isPrefixOf_lower (s : Str) :
    openTok.isPrefixOf (lower s) = openTok.isPrefixOf s := by
  cases s with
  | nil => rfl
  | cons c1 t1 =>
    cases t1 with
    | nil => simp [openTok, lower, List.isPrefixOf, Bool.and_false]
    | cons c2 t2 =>
      cases t2 with
      | nil => simp [openTok, lower, List.isPrefixOf, Bool.and_false]
      | cons c3 t3 =>
        cases t3 with
        | nil => simp [openTok, lower, List.isPrefixOf, Bool.and_false]
        | cons c4 t4 =>
          show (('<' == lowerChar c1) && (('!' == lowerChar c2) &&
              (('-' == lowerChar c3) && (('-' == lowerChar c4) &&
                List.isPrefixOf [] (lower t4))))) =
            (('<' == c1) && (('!' == c2) && (('-' == c3) && (('-' == c4) &&
              List.isPrefixOf [] t4))))
          rw [beq_lowerChar_delim c1 '<' (by tauto), beq_lowerChar_delim c2 '!' (by tauto),
            beq_lowerChar_delim c3 '-' (by tauto), beq_lowerChar_delim c4 '-' (by tauto)]
          simp [List.isPrefixOf]

lemma closeTok_isPrefixOf_lower (s : Str) :
    closeTok.isPrefixOf (lower s) = closeTok.isPrefixOf s := by
  cases s with
  | nil => rfl
  | cons c1 t1 =>
    cases t1 with
    | nil => simp [closeTok, lower, List.isPrefixOf, Bool.and_false]
    | cons c2 t2 =>
      cases t2 with
      | nil => simp [closeTok, lower, List.isPrefixOf, Bool.and_false]
      | cons c3 t3 =>
        show (('-' == lowerChar c1) && (('-' == lowerChar c2) &&
            (('>' == lowerChar c3) && List.isPrefixOf [] (lower t3)))) =
          (('-' == c1) && (('-' == c2) && (('>' == c3) && List.isPrefixOf [] t3)))
        rw [beq_lowerChar_delim c1 '-' (by tauto), beq_lowerChar_delim c2 '-' (by tauto),
          beq_lowerChar_delim c3 '>' (by tauto)]
        simp [List.isPrefixOf]

lemma lower_cons (c : Char) (s : Str) : lower (c :: s) = lowerChar c :: lower s := rfl

lemma findSub_lower (pat : Str)
    (hp : ∀ u, pat.isPrefixOf (lower u) = pat.isPrefixOf u) :
    ∀ s, findSub pat (lower s) = findSub pat s := by
  intro s
  induction s with
  | nil => rfl
  | cons c rest ih =>
    show findSub pat (lowerChar c :: lower rest) = _
    cases hpre : pat.isPrefixOf (c :: rest) with
    | true =>
      have h2 : pat.isPrefixOf (lowerChar c :: lower rest) = true := by
        have h3 := hp (c :: rest)
        rw [lower_cons] at h3
        rw [h3, hpre]
      rw [findSub_of_prefixTrue _ _ h2, findSub_of_prefixTrue _ _ hpre]
    | false =>
      have h2 : pat.isPrefixOf (lowerChar c :: lower rest) = false := by
        have h3 := hp (c :: rest)
        rw [lower_cons] at h3
        rw [h3, hpre]
      rw [findSub_cons_of_notPrefix _ _ _ h2, findSub_cons_of_notPrefix _ _ _ hpre, ih]

lemma remove_comments_lower (s : Str) :
    remove_comments (lower s) = lower (remove_comments s) := by
  suffices h : ∀ n (s : Str), s.length ≤ n →
      remove_comments (lower s) = lower (remove_comments s) from h s.length s le_rfl
  intro n
  induction n with
  | zero =>
    intro s hs
    have : s = [] := List.eq_nil_of_length_eq_zero (Nat.le_zero.mp hs)
    subst this
    rfl
  | succ n ih =>
    intro s hs
    rw [remove_comments_eq (lower s), remove_comments_eq s, openTok_isPrefixOf_lower]
    cases hpre : openTok.isPrefixOf s with
    | true =>
      rw [if_pos rfl, if_pos rfl]
      have hlen4 : 4 ≤ s.length :=
        List.IsPrefix.length_le (List.isPrefixOf_iff_prefix.mp hpre)
      have hdrop : (lower s).drop 4 = lower (s.drop 4) := (List.map_drop _ _ _).symm
      rw [hdrop, findSub_lower closeTok closeTok_isPrefixOf_lower]
      cases hfs : findSub closeTok (s.drop 4) with
      | none => rfl
      | some j =>
        show remove_comments ((lower s).drop (4 + j + 3)) = _
        have hdrop2 : (lower s).drop (4 + j + 3) = lower (s.drop (4 + j + 3)) :=
          (List.map_drop _ _ _).symm
        rw [hdrop2]
        apply ih
        rw [List.length_drop]
        omega
    | false =>
      rw [if_neg (by simp), if_neg (by simp)]
      cases s with
      | nil => rfl
      | cons c rest =>
        show (match lowerChar c :: lower rest with
          | [] => ([] : Str)
          | c :: rest => c :: remove_comments rest) = _
        simp only []
        rw [ih rest (by simp at hs; omega)]
        rfl

/-! ### Dictionary lemmas -/

lemma dictLookup_dictInsert_self (d : Dict) (k : Str) (v : Entry) :
    dictLookup (dictInsert d k v) k = some v := by
  induction d with
  | nil => simp [dictInsert, dictLookup, List.find?]
  | cons p rest ih =>
    by_cases h : (p.1 == k) = true
    · simp [dictInsert, h, dictLookup, List.find?]
    · rw [Bool.not_eq_true] at h
      simp only [dictInsert, h, Bool.false_eq_true, if_false]
      simp only [dictLookup, List.find?, h] at ih ⊢
      exact ih

lemma mem_dictInsert (d : Dict) (k : Str) (v : Entry) (q : Str × Entry)
    (h : q ∈ dictInsert d k v) : q ∈ d ∨ q = (k, v) := by
  induction d with
  | nil =>
    simp [dictInsert] at h
    right
    exact h
  | cons p rest ih =>
    by_cases hk : (p.1 == k) = true
    · simp only [dictInsert, hk, if_true] at h
      rcases List.mem_cons.mp h with h1 | h1
      · right; exact h1
      · left; exact List.mem_cons_of_mem _ h1
    · rw [Bool.not_eq_true] at hk
      simp only [dictInsert, hk, Bool.false_eq_true, if_false] at h
      rcases List.mem_cons.mp h with h1 | h1
      · left; exact h1 ▸ List.mem_cons_self _ _
      · rcases ih h1 with h2 | h2
        · left; exact List.mem_cons_of_mem _ h2
        · right; exact h2

/-! ### The inner fold over offending lines -/

lemma lines_foldl_dict_lookup (lines : List Str) (d : Dict) (k : Str) (p : Str) :
    dictLookup (lines.foldl (fun d2 line => dictInsert d2 k ⟨p, line⟩) d) k =
      match lines.getLast? with
      | some l => some ⟨p, l⟩
      | none => dictLookup d k := by
  induction lines generalizing d with
  | nil => rfl
  | cons l ls ih =>
    rw [List.foldl_cons, ih]
    cases hls : ls.getLast? with
    | none => simp [List.getLast?_cons, hls, dictLookup_dictInsert_self]
    | some l2 => simp [List.getLast?_cons, hls]

lemma lines_foldl_option (lines : List Str) (acc : Option Entry) (p : Str) :
    lines.foldl (fun _a line => some ⟨p, line⟩) acc =
      match lines.getLast? with
      | some l => some ⟨p, l⟩
      | none => acc := by
  induction lines generalizing acc with
  | nil => rfl
  | cons l ls ih =>
    rw [List.foldl_cons, ih]
    cases hls : ls.getLast? with
    | none => simp [List.getLast?_cons, hls]
    | some l2 => simp [List.getLast?_cons, hls]

lemma mem_lines_foldl (lines : List Str) (d : Dict) (k : Str) (p : Str)
    (q : Str × Entry)
    (h : q ∈ lines.foldl (fun d2 line => dictInsert d2 k ⟨p, line⟩) d) :
    q ∈ d ∨ ∃ line, line ∈ lines ∧ q = (k, ⟨p, line⟩) := by
  induction lines generalizing d with
  | nil => left; exact h
  | cons l ls ih =>
    rw [List.foldl_cons] at h
    rcases ih _ h with h1 | ⟨line, hline, hq⟩
    · rcases mem_dictInsert _ _ _ _ h1 with h2 | h2
      · left; exact h2
      · right; exact ⟨l, List.mem_cons_self _ _, h2⟩
    · right; exact ⟨line, List.mem_cons_of_mem _ hline, hq⟩

/-! ### The fold over the pattern list, dictionary side vs option side -/

lemma pats_foldl_bridge (low key : Str) :
    ∀ (pats : List Str) (d : Dict) (acc : Option Entry),
      dictLookup d key = acc →
      dictLookup
        (pats.foldl
          (fun d2 latin_type =>
            if containsSub latin_type low then
              (get_lines low latin_type).foldl
                (fun d3 line => dictInsert d3 key ⟨latin_type, line⟩) d2
            else d2) d) key =
      pats.foldl
        (fun acc2 latin_type =>
          if containsSub latin_type low then
            (get_lines low latin_type).foldl
              (fun _a line => some ⟨latin_type, line⟩) acc2
          else acc2) acc := by
  intro pats
  induction pats with
  | nil => intro d acc h; exact h
  | cons p ps ih =>
    intro d acc h
    rw [List.foldl_cons, List.foldl_cons]
    by_cases hc : containsSub p low = true
    · rw [if_pos hc, if_pos hc]
      apply ih
      rw [lines_foldl_dict_lookup, lines_foldl_option]
      cases (get_lines low p).getLast? <;> simp [h]
    · rw [Bool.not_eq_true] at hc
      rw [if_neg (by simp [hc]), if_neg (by simp [hc])]
      exact ih d acc h

lemma foldl_lastWrite {α β : Type} (step : Option β → α → Option β)
    (hstep : ∀ p, (∀ acc, step acc p = acc) ∨ (∃ v, ∀ acc, step acc p = some v)) :
    ∀ (pats : List α) (acc : Option β),
      pats.foldl step acc = (pats.foldl step none).elim acc some := by
  intro pats
  induction pats with
  | nil => intro acc; rfl
  | cons p ps ih =>
    intro acc
    rw [List.foldl_cons, List.foldl_cons, ih (step acc p), ih (step none p)]
    cases hnone : ps.foldl step none with
    | some e => rfl
    | none =>
      simp only [Option.elim]
      rcases hstep p with h | ⟨v, h⟩
      · rw [h acc, h none]
      · rw [h acc, h none]

/-! ### Lines always witness a newline-free substring match -/

lemma splitNl_ne_nil (s : Str) : splitNl s ≠ [] := by
  cases s with
  | nil => simp [splitNl]
  | cons c rest =>
    by_cases h : (c == '\n') = true
    · simp [splitNl, h]
    · rw [Bool.not_eq_true] at h
      simp only [splitNl, h, Bool.false_eq_true, if_false]
      cases splitNl rest <;> simp

lemma containsSub_cons_of (p s : Str) (c : Char) (h : containsSub p s = true) :
    containsSub p (c :: s) = true := by
  simp [containsSub, h]

lemma isPrefixOf_head_splitNl :
    ∀ (p : Str), p.all (fun c => !(c == '\n')) = true →
      ∀ s, p.isPrefixOf s = true →
        ∃ hd tl, splitNl s = hd :: tl ∧ p.isPrefixOf hd = true := by
  intro p
  induction p with
  | nil =>
    intro _ s _
    cases hsp : splitNl s with
    | nil => exact absurd hsp (splitNl_ne_nil s)
    | cons hd tl => exact ⟨hd, tl, rfl, by simp [List.isPrefixOf]⟩
  | cons a p' ih =>
    intro hnl s hpre
    simp only [List.all_cons, Bool.and_eq_true] at hnl
    cases s with
    | nil => simp [List.isPrefixOf] at hpre
    | cons b s' =>
      simp only [List.isPrefixOf, Bool.and_eq_true] at hpre
      obtain ⟨hab, hp'⟩ := hpre
      have hab2 : a = b := beq_iff_eq.mp hab
      have hb : (b == '\n') = false := by
        rw [← hab2]
        simpa using hnl.1
      obtain ⟨hd', tl', hsp', hpre'⟩ := ih hnl.2 s' hp'
      refine ⟨b :: hd', tl', ?_, ?_⟩
      · simp only [splitNl, hb, Bool.false_eq_true, if_false, hsp']
      · simp [List.isPrefixOf, hab, hpre']

lemma exists_line_of_containsSub (p : Str)
    (hnl : p.all (fun c => !(c == '\n')) = true) :
    ∀ s, containsSub p s = true → ∃ l, l ∈ splitNl s ∧ containsSub p l = true := by
  intro s
  induction s with
  | nil =>
    intro h
    exact ⟨[], by simp [splitNl], h⟩
  | cons c rest ih =>
    intro h
    rw [containsSub, Bool.or_eq_true] at h
    rcases h with h | h
    · obtain ⟨hd, tl, hsp, hpre⟩ := isPrefixOf_head_splitNl p hnl (c :: rest) h
      exact ⟨hd, by rw [hsp]; exact List.mem_cons_self _ _,
        containsSub_of_isPrefixOf _ _ hpre⟩
    · obtain ⟨l, hl, hcl⟩ := ih h
      by_cases hcn : (c == '\n') = true
      · exact ⟨l, by simp only [splitNl, hcn, if_true]; exact List.mem_cons_of_mem _ hl, hcl⟩
      · rw [Bool.not_eq_true] at hcn
        cases hsp : splitNl rest with
        | nil => exact absurd hsp (splitNl_ne_nil rest)
        | cons hd tl =>
          rw [hsp] at hl
          rcases List.mem_cons.mp hl with h1 | h1
          · subst h1
            refine ⟨c :: l, ?_, containsSub_cons_of _ _ _ hcl⟩
            simp only [splitNl, hcn, Bool.false_eq_true, if_false, hsp]
            exact List.mem_cons_self _ _
          · refine ⟨l, ?_, hcl⟩
            simp only [splitNl, hcn, Bool.false_eq_true, if_false, hsp]
            exact List.mem_cons_of_mem _ h1

lemma get_lines_ne_nil (s p : Str) (hnl : p.all (fun c => !(c == '\n')) = true)
    (hc : containsSub p s = true) : get_lines s p ≠ [] := by
  obtain ⟨l, hl, hcl⟩ := exists_line_of_containsSub p hnl s hc
  intro hemp
  have hmem : l ∈ get_lines s p := List.mem_filter.mpr ⟨hl, hcl⟩
  rw [hemp] at hmem
  exact List.not_mem_nil _ hmem

/-! ### Properties of the per-file scan -/

lemma checkText_some (text : Str) (e : Entry) (h : checkText text = some e) :
    containsSub e.latin_type (lower (remove_comments text)) = true ∧
    (get_lines (lower (remove_comments text)) e.latin_type).getLast? = some e.line := by
  unfold checkText at h
  suffices H : ∀ (pats : List Str) (acc : Option Entry),
      (∀ e0 : Entry, acc = some e0 →
        containsSub e0.latin_type (lower (remove_comments text)) = true ∧
        (get_lines (lower (remove_comments text)) e0.latin_type).getLast? = some e0.line) →
      ∀ e0 : Entry,
        pats.foldl
          (fun acc2 latin_type =>
            if containsSub latin_type (lower (remove_comments text)) then
              (get_lines (lower (remove_comments text)) latin_type).foldl
                (fun _a line => some ⟨latin_type, line⟩) acc2
            else acc2) acc = some e0 →
        containsSub e0.latin_type (lower (remove_comments text)) = true ∧
        (get_lines (lower (remove_comments text)) e0.latin_type).getLast? = some e0.line by
    exact H bad_latin none (by intro e0 h0; simp at h0) e h
  intro pats
  induction pats with
  | nil => intro acc hacc e0 h0; exact hacc e0 h0
  | cons p ps ih =>
    intro acc hacc e0 h0
    rw [List.foldl_cons] at h0
    refine ih _ ?_ e0 h0
    intro e1 h1
    by_cases hc : containsSub p (lower (remove_comments text)) = true
    · rw [if_pos hc, lines_foldl_option] at h1
      cases hls : (get_lines (lower (remove_comments text)) p).getLast? with
      | none => rw [hls] at h1; exact hacc e1 h1
      | some l =>
        simp only [hls] at h1
        obtain he1 : (⟨p, l⟩ : Entry) = e1 := Option.some.inj h1
        subst he1
        exact ⟨hc, hls⟩
    · rw [Bool.not_eq_true] at hc
      rw [if_neg (by simp [hc])] at h1
      exact hacc e1 h1

lemma checkText_map_lastMatching (text : Str) :
    (checkText text).map (fun e => e.latin_type) =
      lastMatching (lower (remove_comments text)) := by
  unfold checkText lastMatching
  suffices H : ∀ (pats : List Str),
      (∀ p, p ∈ pats → p.all (fun c => !(c == '\n')) = true) →
      ∀ (acc : Option Entry) (accP : Option Str),
        acc.map (fun e => e.latin_type) = accP →
        (pats.foldl
          (fun acc2 latin_type =>
            if containsSub latin_type (lower (remove_comments text)) then
              (get_lines (lower (remove_comments text)) latin_type).foldl
                (fun _a line => some ⟨latin_type, line⟩) acc2
            else acc2) acc).map (fun e => e.latin_type) =
        pats.foldl
          (fun acc2 p =>
            if containsSub p (lower (remove_comments text)) then some p else acc2) accP by
    exact H bad_latin (by decide) none none rfl
  intro pats
  induction pats with
  | nil => intro _ acc accP h; exact h
  | cons p ps ih =>
    intro hnl acc accP h
    rw [List.foldl_cons, List.foldl_cons]
    refine ih (fun q hq => hnl q (List.mem_cons_of_mem _ hq)) _ _ ?_
    by_cases hc : containsSub p (lower (remove_comments text)) = true
    · rw [if_pos hc, if_pos hc, lines_foldl_option]
      cases hls : (get_lines (lower (remove_comments text)) p).getLast? with
      | none =>
        exfalso
        have hne := get_lines_ne_nil (lower (remove_comments text)) p
          (hnl p (List.mem_cons_self _ _)) hc
        exact hne (List.getLast?_eq_none_iff.mp hls)
      | some l => simp
    · rw [Bool.not_eq_true] at hc
      rw [if_neg (by simp [hc]), if_neg (by simp [hc])]
      exact h

lemma checkFile_lookup (fs : Str → Option Str) (abspath : Str → Str) (d : Dict)
    (f text : Str) (hfs : fs f = some text) (hig : basename f ∉ IGNORE_LIST) :
    dictLookup (checkFile fs abspath d f) (abspath f) =
      (checkText text).elim (dictLookup d (abspath f)) some := by
  unfold checkFile
  rw [if_neg hig]
  simp only [hfs]
  rw [pats_foldl_bridge (lower (remove_comments text)) (abspath f) bad_latin d
    (dictLookup d (abspath f)) rfl]
  unfold checkText
  apply foldl_lastWrite
  intro p
  by_cases hc : containsSub p (lower (remove_comments text)) = true
  · cases hls : (get_lines (lower (remove_comments text)) p).getLast? with
    | none =>
      left
      intro acc
      rw [if_pos hc, lines_foldl_option]
      simp [hls]
    | some l =>
      right
      refine ⟨⟨p, l⟩, ?_⟩
      intro acc
      rw [if_pos hc, lines_foldl_option]
      simp [hls]
  · left
    intro acc
    rw [Bool.not_eq_true] at hc
    rw [if_neg (by simp [hc])]

lemma checkFile_ignored (fs : Str → Option Str) (abspath : Str → Str) (d : Dict)
    (f : Str) (hig : basename f ∈ IGNORE_LIST) : checkFile fs abspath d f = d := by
  unfold checkFile
  rw [if_pos hig]

lemma checkFile_missing (fs : Str → Option Str) (abspath : Str → Str) (d : Dict)
    (f : Str) (hfs : fs f = none) : checkFile fs abspath d f = d := by
  unfold checkFile
  split
  · rfl
  · simp [hfs]

lemma read_and_check_skip (fs : Str → Option Str) (abspath : Str → Str)
    (xs ys : List Str) (f : Str) (hskip : ∀ d, checkFile fs abspath d f = d) :
    read_and_check_files fs abspath (xs ++ f :: ys) =
      read_and_check_files fs abspath (xs ++ ys) := by
  unfold read_and_check_files
  rw [List.foldl_append, List.foldl_append, List.foldl_cons, hskip]

/-! ### Membership in the result dictionary -/

lemma mem_pats_foldl (low key : Str) :
    ∀ (pats : List Str) (d : Dict) (q : Str × Entry),
      q ∈ pats.foldl
        (fun d2 latin_type =>
          if containsSub latin_type low then
            (get_lines low latin_type).foldl
              (fun d3 line => dictInsert d3 key ⟨latin_type, line⟩) d2
          else d2) d →
      q ∈ d ∨ (q.1 = key ∧ containsSub q.2.latin_type q.2.line = true) := by
  intro pats
  induction pats with
  | nil => intro d q h; left; exact h
  | cons p ps ih =>
    intro d q h
    rw [List.foldl_cons] at h
    rcases ih _ q h with h1 | h1
    · by_cases hc : containsSub p low = true
      · rw [if_pos hc] at h1
        rcases mem_lines_foldl _ _ _ _ _ h1 with h2 | ⟨line, hline, hq⟩
        · left; exact h2
        · right
          subst hq
          exact ⟨rfl, (List.mem_filter.mp hline).2⟩
      · rw [Bool.not_eq_true] at hc
        rw [if_neg (by simp [hc])] at h1
        left; exact h1
    · right; exact h1

lemma mem_checkFile (fs : Str → Option Str) (abspath : Str → Str) (d : Dict)
    (f : Str) (q : Str × Entry) (h : q ∈ checkFile fs abspath d f) :
    q ∈ d ∨ (q.1 = abspath f ∧ basename f ∉ IGNORE_LIST ∧
      containsSub q.2.latin_type q.2.line = true) := by
  unfold checkFile at h
  by_cases hig : basename f ∈ IGNORE_LIST
  · rw [if_pos hig] at h; left; exact h
  · rw [if_neg hig] at h
    cases hfs : fs f with
    | none => simp only [hfs] at h; left; exact h
    | some text =>
      simp only [hfs] at h
      rcases mem_pats_foldl (lower (remove_comments text)) (abspath f) bad_latin d q h with
        h1 | ⟨h1, h2⟩
      · left; exact h1
      · right; exact ⟨h1, hig, h2⟩

lemma mem_read_and_check_aux (fs : Str → Option Str) (abspath : Str → Str) :
    ∀ (files : List Str) (d : Dict) (q : Str × Entry),
      q ∈ files.foldl (checkFile fs abspath) d →
      q ∈ d ∨ ((∃ f, f ∈ files ∧ q.1 = abspath f ∧ basename f ∉ IGNORE_LIST) ∧
        containsSub q.2.latin_type q.2.line = true) := by
  intro files
  induction files with
  | nil => intro d q h; left; exact h
  | cons f fl ih =>
    intro d q h
    rw [List.foldl_cons] at h
    rcases ih _ q h with h1 | ⟨⟨g, hg, hq1, hq2⟩, h2⟩
    · rcases mem_checkFile _ _ _ _ _ h1 with h2 | ⟨ha, hb, hcj⟩
      · left; exact h2
      · right; exact ⟨⟨f, List.mem_cons_self _ _, ha, hb⟩, hcj⟩
    · right; exact ⟨⟨g, List.mem_cons_of_mem _ hg, hq1, hq2⟩, h2⟩

/-! ### Remaining helper lemmas -/

lemma hasSpan_false_of_no_open (b : Str) (hb : containsSub openTok b = false) :
    hasSpan b = false := by
  unfold hasSpan
  rw [findSub_eq_none_of_not_contains _ _ hb]

lemma containsSub_nil_pat (s : Str) : containsSub [] s = true := by
  cases s <;> simp [containsSub, List.isPrefixOf]

lemma containsSub_append_right (p u v : Str) (h : containsSub p u = true) :
    containsSub p (v ++ u) = true := by
  induction v with
  | nil => exact h
  | cons x v' ih => exact containsSub_cons_of _ _ _ ih

lemma containsSub_append_left (p u v : Str) (h : containsSub p u = true) :
    containsSub p (u ++ v) = true := by
  induction u with
  | nil =>
    have hp : p = [] := by
      cases p with
      | nil => rfl
      | cons a p' => simp [containsSub, List.isPrefixOf] at h
    subst hp
    exact containsSub_nil_pat v
  | cons x u' ih =>
    rw [containsSub, Bool.or_eq_true] at h
    rcases h with h | h
    · have hpre : p.isPrefixOf ((x :: u') ++ v) = true := by
        rw [List.isPrefixOf_iff_prefix] at h ⊢
        exact h.trans (List.prefix_append _ _)
      exact containsSub_of_isPrefixOf _ _ hpre
    · exact containsSub_cons_of _ _ _ (ih h)

lemma single_file_lookup (fs : Str → Option Str) (abspath : Str → Str)
    (f text : Str) (hfs : fs f = some text) (hig : basename f ∉ IGNORE_LIST) :
    dictLookup (read_and_check_files fs abspath [f]) (abspath f) = checkText text := by
  show dictLookup (checkFile fs abspath [] f) (abspath f) = checkText text
  rw [checkFile_lookup fs abspath [] f text hfs hig]
  cases checkText text <;> rfl

/-! ### Claim C1 -/

/-- C1 is false on the code: in the file content "i.e. x e.g. y" both the
pattern "i.e." and the pattern "e.g." occur in the comment-stripped,
lower-cased text, yet the dictionary returned by `read_and_check_files`
holds exactly one entry for that file, and no entry at all records the
matching pattern "i.e." — the file path is the only dictionary key, so the
later matching pattern overwrites the earlier one instead of being recorded
independently. -/
theorem C1_counterexample :
    containsSub ("i.e.".toList) (lower (remove_comments ("i.e. x e.g. y".toList))) = true ∧
    containsSub ("e.g.".toList) (lower (remove_comments ("i.e. x e.g. y".toList))) = true ∧
    (read_and_check_files
      (fun f => if f = "doc.md".toList then some ("i.e. x e.g. y".toList) else none)
      (fun f => f) ["doc.md".toList]).length = 1 ∧
    (∀ q ∈ read_and_check_files
      (fun f => if f = "doc.md".toList then some ("i.e. x e.g. y".toList) else none)
      (fun f => f) ["doc.md".toList], ¬ q.2.latin_type = "i.e.".toList) := by
  decide

/-- C1 (amended): a failing file has exactly one entry in the scan result,
not one entry per matching pattern: scanning a single file stores
`checkText text` under the file's absolute path, and the pattern of that
single entry is the last pattern of the `bad_latin` list (in list order)
that occurs in the comment-stripped, lower-cased text. -/
theorem C1_amended (fs : Str → Option Str) (abspath : Str → Str) (f text : Str)
    (hfs : fs f = some text) (hig : basename f ∉ IGNORE_LIST) :
    dictLookup (read_and_check_files fs abspath [f]) (abspath f) = checkText text ∧
    (checkText text).map (fun e => e.latin_type) =
      lastMatching (lower (remove_comments text)) :=
  ⟨single_file_lookup fs abspath f text hfs hig, checkText_map_lastMatching text⟩

/-- Witness for `C1_amended` at the counterexample file. -/
theorem C1_amended_witness :
    dictLookup (read_and_check_files
        (fun f => if f = "doc.md".toList then some ("i.e. x e.g. y".toList) else none)
        (fun f => f) ["doc.md".toList]) ("doc.md".toList) =
      checkText ("i.e. x e.g. y".toList) ∧
    (checkText ("i.e. x e.g. y".toList)).map (fun e => e.latin_type) =
      lastMatching (lower (remove_comments ("i.e. x e.g. y".toList))) :=
  C1_amended
    (fun f => if f = "doc.md".toList then some ("i.e. x e.g. y".toList) else none)
    (fun f => f) ("doc.md".toList) ("i.e. x e.g. y".toList) (by decide) (by decide)

/-! ### Claim C2 -/

/-- C2 is false on the code: stripping `<!<!-- x -->-- y -->` once yields
`<!-- y -->`, and stripping a second time yields the empty text, so
`remove_comments` is not idempotent — deleting a span can splice together a
new comment span. -/
theorem C2_counterexample :
    remove_comments (remove_comments ("<!<!-- x -->-- y -->".toList)) ≠
      remove_comments ("<!<!-- x -->-- y -->".toList) := by
  decide

/-- C2 (amended): the comment stripper is idempotent on exactly the texts
whose once-stripped form contains no freshly spliced comment span: whenever
`remove_comments t` has no `<!--` followed (four or more characters later)
by a `-->`, stripping again changes nothing. -/
theorem C2_amended (t : Str) (h : hasSpan (remove_comments t) = false) :
    remove_comments (remove_comments t) = remove_comments t :=
  remove_comments_id_of_no_span _ h

/-- Witness for `C2_amended` on a text with one ordinary comment. -/
theorem C2_amended_witness :
    remove_comments (remove_comments ("a<!--b-->c".toList)) =
      remove_comments ("a<!--b-->c".toList) :=
  C2_amended ("a<!--b-->c".toList) (by decide)

/-! ### Claim C3 -/

/-- C3: when the scan of a file records an entry, the offending line stored
with the recorded pattern is the last line (in document order) of the
comment-stripped, lower-cased text that contains that pattern as a
substring — later occurrences overwrite earlier ones. -/
theorem C3_last_line (fs : Str → Option Str) (abspath : Str → Str)
    (f text : Str) (e : Entry) (hfs : fs f = some text)
    (hig : basename f ∉ IGNORE_LIST)
    (h : dictLookup (read_and_check_files fs abspath [f]) (abspath f) = some e) :
    (get_lines (lower (remove_comments text)) e.latin_type).getLast? = some e.line := by
  rw [single_file_lookup fs abspath f text hfs hig] at h
  exact (checkText_some text e h).2

/-- Witness for `C3_last_line`: with two lines containing "i.e.", the second
one is recorded. -/
theorem C3_witness :
    (get_lines (lower (remove_comments ("i.e. one\nalso i.e. two".toList)))
      ("i.e.".toList)).getLast? = some ("also i.e. two".toList) :=
  C3_last_line
    (fun f => if f = "a.md".toList then some ("i.e. one\nalso i.e. two".toList) else none)
    (fun f => f) ("a.md".toList) ("i.e. one\nalso i.e. two".toList)
    ⟨"i.e.".toList, "also i.e. two".toList⟩ (by decide) (by decide) (by decide)

/-! ### Claim C4 -/

/-- C4: the run raises (non-zero exit) exactly when the report is non-empty,
and in that case the raised message is the aggregated
`construct_error_message` of the whole report; scanning never stops early —
the fold continues over the remaining files from whatever has been collected
so far, and a later file with a match is present in the final report no
matter what earlier files contained. -/
theorem C4_exit_behavior (fs : Str → Option Str) (abspath : Str → Str)
    (files : List Str) :
    (mainCheck fs abspath files = none ↔ read_and_check_files fs abspath files = []) ∧
    (∀ msg, mainCheck fs abspath files = some msg →
      msg = construct_error_message (read_and_check_files fs abspath files)) ∧
    (∀ xs ys, read_and_check_files fs abspath (xs ++ ys) =
      ys.foldl (checkFile fs abspath) (read_and_check_files fs abspath xs)) ∧
    (∀ xs g text e, fs g = some text → basename g ∉ IGNORE_LIST →
      checkText text = some e →
      dictLookup (read_and_check_files fs abspath (xs ++ [g])) (abspath g) = some e) := by
  refine ⟨?_, ?_, ?_, ?_⟩
  · unfold mainCheck
    split
    case isTrue h =>
      constructor
      · intro _; exact List.isEmpty_iff.mp h
      · intro _; rfl
    case isFalse h =>
      constructor
      · intro hcon; exact absurd hcon (by simp)
      · intro he; exact absurd (by rw [he]; rfl) h
  · intro msg h
    unfold mainCheck at h
    split at h
    · exact absurd h (by simp)
    · exact (Option.some.inj h).symm
  · intro xs ys
    unfold read_and_check_files
    rw [List.foldl_append]
  · intro xs g text e hfs hig hct
    unfold read_and_check_files
    rw [List.foldl_append]
    show dictLookup (checkFile fs abspath
      (List.foldl (checkFile fs abspath) [] xs) g) (abspath g) = some e
    rw [checkFile_lookup _ _ _ _ _ hfs hig, hct]
    rfl

/-- Witness for `C4_exit_behavior`: no files, empty report, silent success. -/
theorem C4_witness :
    mainCheck (fun _ => none) (fun f => f) ["x.md".toList] = none :=
  ((C4_exit_behavior (fun _ => none) (fun f => f) ["x.md".toList]).1).mpr (by decide)

/-! ### Claim C5 -/

/-- C5 is false on the code: in the text `" i<!-- ie -->e "` (of length 15,
whose single comment span occupies indices 2 to 12) the pattern `" ie "`
occurs only at index 6, strictly inside the comment span, yet after
stripping the scanner records a match for `" ie "`: removing the span
splices `" i"` and `"e "` into a fresh occurrence. -/
theorem C5_counterexample :
    (" i<!-- ie -->e ".toList).length = 15 ∧
    " i<!-- ie -->e ".toList =
      " i".toList ++ (openTok ++ (" ie ".toList ++ (closeTok ++ "e ".toList))) ∧
    (∀ i, i < 15 →
      (" ie ".toList).isPrefixOf ((" i<!-- ie -->e ".toList).drop i) = true →
      2 ≤ i ∧ i + 4 ≤ 13) ∧
    containsSub (" ie ".toList) (" i<!-- ie -->e ".toList) = true ∧
    checkText (" i<!-- ie -->e ".toList) = some ⟨" ie ".toList, " ie ".toList⟩ := by
  decide

/-- C5 (amended): for a text `a <!-- c --> b` with a single well-formed
comment span, the scanner records no match for a pattern that does not occur
in the lower-cased concatenation `a ++ b` of the text outside the span (in
particular, for patterns occurring only inside the span and not spliced into
existence at the junction); and a pattern occurring outside the span — in
`a` or in `b` — is still matched after stripping. -/
theorem C5_amended (a c b p : Str)
    (ha : containsSub openTok a = false) (hc : containsSub closeTok c = false)
    (hb : containsSub openTok b = false) :
    (containsSub p (lower (a ++ b)) = false →
      containsSub p
        (lower (remove_comments (a ++ (openTok ++ (c ++ (closeTok ++ b)))))) = false) ∧
    (containsSub p (lower a) = true ∨ containsSub p (lower b) = true →
      containsSub p
        (lower (remove_comments (a ++ (openTok ++ (c ++ (closeTok ++ b)))))) = true) := by
  have hspan := remove_comments_span a c b ha hc
  have hbid : remove_comments b = b :=
    remove_comments_id_of_no_span b (hasSpan_false_of_no_open b hb)
  rw [hspan, hbid]
  constructor
  · intro h; exact h
  · intro h
    have hl : lower (a ++ b) = lower a ++ lower b := List.map_append _ _ _
    rw [hl]
    rcases h with h | h
    · exact containsSub_append_left _ _ _ h
    · exact containsSub_append_right _ _ _ h

/-- Witness for `C5_amended`: a pattern after the comment is still found. -/
theorem C5_witness :
    containsSub ("e.g.".toList)
      (lower (remove_comments
        ("x ".toList ++ (openTok ++ ("no".toList ++ (closeTok ++ " e.g. y".toList)))))) =
      true :=
  (C5_amended ("x ".toList) ("no".toList) (" e.g. y".toList) ("e.g.".toList)
    (by decide) (by decide) (by decide)).2 (Or.inr (by decide))

/-! ### Claim C6 -/

/-- C6: `remove_comments` removes a comment span whole — the opener pairs
with the nearest following closer (`c` contains no `-->`), even across line
boundaries, and the rest of the text is processed as if the span were not
there; an opener with no closer after it is left untouched together with all
text from it to the end. -/
theorem C6_span_behavior (a c b c2 : Str)
    (ha : containsSub openTok a = false) (hc : containsSub closeTok c = false)
    (hc2 : containsSub closeTok c2 = false) :
    remove_comments (a ++ (openTok ++ (c ++ (closeTok ++ b)))) =
      a ++ remove_comments b ∧
    remove_comments (a ++ (openTok ++ c2)) = a ++ (openTok ++ c2) :=
  ⟨remove_comments_span a c b ha hc, remove_comments_unterminated a c2 ha hc2⟩

/-- Witness for `C6_span_behavior`, with a span crossing a line boundary and
an unterminated opener. -/
theorem C6_witness :
    remove_comments
        ("x".toList ++ (openTok ++ ("hi\nthere".toList ++ (closeTok ++ "y".toList)))) =
      "x".toList ++ remove_comments ("y".toList) ∧
    remove_comments ("x".toList ++ (openTok ++ " lost".toList)) =
      "x".toList ++ (openTok ++ " lost".toList) :=
  C6_span_behavior ("x".toList) ("hi\nthere".toList) ("y".toList) (" lost".toList)
    (by decide) (by decide) (by decide)

/-! ### Claim C7 -/

/-- C7: two texts that lower-case to the same string produce the same set of
matched patterns, the same offending lines for every pattern, and the same
recorded scan entry — the scanner is case-insensitive, so a pattern written
in any casing is detected exactly like its lower-case form. -/
theorem C7_case_insensitive (t1 t2 : Str) (h : lower t1 = lower t2) :
    bad_latin.filter (fun p => containsSub p (lower (remove_comments t1))) =
      bad_latin.filter (fun p => containsSub p (lower (remove_comments t2))) ∧
    (∀ p, get_lines (lower (remove_comments t1)) p =
      get_lines (lower (remove_comments t2)) p) ∧
    checkText t1 = checkText t2 := by
  have key : lower (remove_comments t1) = lower (remove_comments t2) := by
    rw [← remove_comments_lower, ← remove_comments_lower, h]
  refine ⟨by rw [key], fun p => by rw [key], ?_⟩
  unfold checkText
  rw [key]

/-- Witness for `C7_case_insensitive` on an upper-cased text. -/
theorem C7_witness :
    checkText ("E.G. Method".toList) = checkText ("e.g. method".toList) :=
  (C7_case_insensitive ("E.G. Method".toList) ("e.g. method".toList) (by decide)).2.2

/-! ### Claim C8 -/

/-- C8: a file whose basename is exactly an ignore-list entry is skipped —
`checkFile` leaves the dictionary untouched without consulting the
filesystem (the statement holds for every `fs`), and removing such a file
from any position in any input list does not change the scan result. -/
theorem C8_ignore_list (fs : Str → Option Str) (abspath : Str → Str)
    (d : Dict) (xs ys : List Str) (f : Str) (hig : basename f ∈ IGNORE_LIST) :
    checkFile fs abspath d f = d ∧
    read_and_check_files fs abspath (xs ++ f :: ys) =
      read_and_check_files fs abspath (xs ++ ys) :=
  ⟨checkFile_ignored fs abspath d f hig,
   read_and_check_skip fs abspath xs ys f
     (fun d2 => checkFile_ignored fs abspath d2 f hig)⟩

/-- Witness for `C8_ignore_list`: "docs/CHANGES.md" full of bad latin is
still skipped. -/
theorem C8_witness :
    checkFile
        (fun f => if f = "docs/CHANGES.md".toList then some ("use e.g. x".toList) else none)
        (fun f => f) [] ("docs/CHANGES.md".toList) = [] ∧
    read_and_check_files
        (fun f => if f = "docs/CHANGES.md".toList then some ("use e.g. x".toList) else none)
        (fun f => f) ([] ++ "docs/CHANGES.md".toList :: ["ok.md".toList]) =
      read_and_check_files
        (fun f => if f = "docs/CHANGES.md".toList then some ("use e.g. x".toList) else none)
        (fun f => f) ([] ++ ["ok.md".toList]) :=
  C8_ignore_list
    (fun f => if f = "docs/CHANGES.md".toList then some ("use e.g. x".toList) else none)
    (fun f => f) [] [] ["ok.md".toList] ("docs/CHANGES.md".toList) (by decide)

/-! ### Claim C9 -/

/-- C9: a file the filesystem cannot provide (`FileNotFoundError`) is
treated as zero matches: it adds no entry, the error does not propagate, and
the remaining files are scanned with unchanged results — deleting it from
any position of the input list leaves the whole result identical. -/
theorem C9_missing_file (fs : Str → Option Str) (abspath : Str → Str)
    (xs ys : List Str) (f : Str) (hfs : fs f = none) :
    read_and_check_files fs abspath (xs ++ f :: ys) =
      read_and_check_files fs abspath (xs ++ ys) :=
  read_and_check_skip fs abspath xs ys f
    (fun d => checkFile_missing fs abspath d f hfs)

/-- Witness for `C9_missing_file` with a missing file between two scanned
files. -/
theorem C9_witness :
    read_and_check_files
        (fun f => if f = "a.md".toList then some ("use e.g. x".toList) else none)
        (fun f => f) (["a.md".toList] ++ "gone.md".toList :: ["b.md".toList]) =
      read_and_check_files
        (fun f => if f = "a.md".toList then some ("use e.g. x".toList) else none)
        (fun f => f) (["a.md".toList] ++ ["b.md".toList]) :=
  C9_missing_file
    (fun f => if f = "a.md".toList then some ("use e.g. x".toList) else none)
    (fun f => f) ["a.md".toList] ["b.md".toList] ("gone.md".toList) (by decide)

/-! ### Claim C10 -/

/-- C10: every entry of the result dictionary is keyed by the absolute path
of one of the input files whose basename is not on the ignore list, and its
recorded line contains its recorded pattern as a substring. -/
theorem C10_wellformed (fs : Str → Option Str) (abspath : Str → Str)
    (files : List Str) (k : Str) (e : Entry)
    (h : (k, e) ∈ read_and_check_files fs abspath files) :
    (∃ f, f ∈ files ∧ k = abspath f ∧ basename f ∉ IGNORE_LIST) ∧
    containsSub e.latin_type e.line = true := by
  rcases mem_read_and_check_aux fs abspath files [] (k, e) h with h1 | ⟨hex, hwf⟩
  · exact absurd h1 (List.not_mem_nil _)
  · exact ⟨hex, hwf⟩

/-- Witness for `C10_wellformed` on a one-file scan. -/
theorem C10_witness :
    (∃ f, f ∈ ["m.md".toList] ∧ "m.md".toList = (fun x : Str => x) f ∧
      basename f ∉ IGNORE_LIST) ∧
    containsSub (Entry.mk ("e.g.".toList) ("use e.g. x".toList)).latin_type
      (Entry.mk ("e.g.".toList) ("use e.g. x".toList)).line = true :=
  C10_wellformed
    (fun f => if f = "m.md".toList then some ("Use e.g. x".toList) else none)
    (fun x => x) ["m.md".toList] ("m.md".toList)
    ⟨"e.g.".toList, "use e.g. x".toList⟩ (by decide)
